import Mathlib

/-!
# timesheet-client: a verification development for `bot.go`

The Go program is a small Slack bot.  This file embeds its data model and
operations in Lean and proves properties of the embedding.

Conventions of the embedding.

* Go `string` values are Lean `String`s.  Every string the program inspects
  comes out of `encoding/json`, which only produces valid UTF-8, so a list of
  Unicode characters is a faithful picture of them.
* A Go `error` is represented by its message; `Option String` stands for an
  `error` value that may be `nil`.
* `uint64` arithmetic is arithmetic on `Nat` modulo `2 ^ 64`.
* Go's `map[string]string` is an association list with unique keys.
* The two regular expressions of the program are values of a small syntax tree,
  run by a backtracking matcher that follows the documented semantics of Go's
  `regexp` package: the match begins as early as possible in the input and,
  among the matches beginning there, it is the one a backtracking search finds
  first.
* The outside world (the HTTP exchange, the websocket) is a parameter.
-/

namespace Timesheet

/-! ## Regular expressions -/

/-- Single-character patterns: a literal, `.` and `\s`. -/
inductive Atom where
  | char (c : Char)
  | any
  | space
deriving DecidableEq

/-- The fragment of Go's regexp syntax that occurs in `bot.go`: single-character
patterns, concatenation, the greedy operators `?`, `*` and `+` (the last two
only ever applied to a single-character pattern), and numbered capturing
groups.  A non-capturing group `(?:x)` is just `x`. -/
inductive Regex where
  | atom (a : Atom)
  | seq (a b : Regex)
  | opt (a : Regex)
  | star (a : Atom)
  | plus (a : Atom)
  | group (i : Nat) (a : Regex)
deriving DecidableEq

/-- Go's `\s` is the ASCII class `[\t\n\f\r ]`. -/
def isSpace (c : Char) : Bool :=
  c == '\t' || c == '\n' || c == Char.ofNat 12 || c == '\r' || c == ' '

/-- Without the `s` flag, `.` matches every character except the line feed. -/
def isDot (c : Char) : Bool := c != '\n'

/-- The characters a single-character pattern accepts. -/
def Atom.test : Atom → Char → Bool
  | .char c, d => d == c
  | .any, d => isDot d
  | .space, d => isSpace d

/-- Captured groups, most recent binding first. -/
abbrev Caps := List (Nat × List Char)

/-- The part of `s` that was consumed when `rest` is what remains of it. -/
def consumed (s rest : List Char) : List Char := s.take (s.length - rest.length)

/-- Greedy repetition of a character class followed by the continuation `k`:
the longest run is tried first, then shorter ones. -/
def starGo {α : Type} (p : Char → Bool) : List Char → (List Char → Option α) → Option α
  | [], k => k []
  | c :: cs, k =>
    if p c then
      match starGo p cs k with
      | some r => some r
      | none => k (c :: cs)
    else k (c :: cs)

/-- Backtracking matcher in continuation-passing style.  `run r s caps k` matches
`r` at the front of `s` and hands the remaining input and the captures to `k`;
alternatives are explored in the priority order of a backtracking engine. -/
def Regex.run {α : Type} : Regex → List Char → Caps → (List Char → Caps → Option α) → Option α
  | .atom _, [], _, _ => none
  | .atom a, c :: cs, caps, k => if a.test c then k cs caps else none
  | .seq a b, s, caps, k => a.run s caps (fun s1 c1 => b.run s1 c1 k)
  | .opt a, s, caps, k =>
    match a.run s caps k with
    | some r => some r
    | none => k s caps
  | .star a, s, caps, k => starGo a.test s (fun s1 => k s1 caps)
  | .plus _, [], _, _ => none
  | .plus a, c :: cs, caps, k =>
    if a.test c then starGo a.test cs (fun s1 => k s1 caps) else none
  | .group i a, s, caps, k => a.run s caps (fun s1 c1 => k s1 ((i, consumed s s1) :: c1))

/-- Number of capturing groups (`Regexp.NumSubexp`). -/
def Regex.numSubexp : Regex → Nat
  | .atom _ => 0
  | .seq a b => a.numSubexp + b.numSubexp
  | .opt a => a.numSubexp
  | .star _ => 0
  | .plus _ => 0
  | .group _ a => a.numSubexp + 1

/-- A match of `re` that begins exactly at the front of `s`; group 0 is the whole match. -/
def matchAt (re : Regex) (s : List Char) : Option Caps :=
  re.run s [] (fun s1 c1 => some ((0, consumed s s1) :: c1))

/-- Leftmost match: the start positions are tried from left to right. -/
def search (re : Regex) : List Char → Option Caps
  | [] => matchAt re []
  | c :: cs =>
    match matchAt re (c :: cs) with
    | some caps => some caps
    | none => search re cs

/-- Text of group `i`; a group that took no part in the match yields the empty string. -/
def capGet (caps : Caps) (i : Nat) : String :=
  match caps.lookup i with
  | some v => String.mk v
  | none => ""

/-- `Regexp.FindStringSubmatch`: the texts of the leftmost match and of its
groups, or the empty slice (`nil`) when there is no match. -/
def FindStringSubmatch (re : Regex) (s : String) : List String :=
  match search re s.toList with
  | none => []
  | some caps => (List.range (re.numSubexp + 1)).map (capGet caps)

/-- `Regexp.MatchString`: whether the text contains a match. -/
def MatchString (re : Regex) (s : String) : Bool := (search re s.toList).isSome

/-- The part `<@(.+)>` of `reMsg`: the mention, whose ID is group 1. -/
def reMention : Regex :=
  .seq (.atom (.char '<')) (.seq (.atom (.char '@'))
    (.seq (.group 1 (.plus .any)) (.atom (.char '>'))))

/-- The part `:?\s+` of `reMsg`: an optional colon and whitespace. -/
def reSeparator : Regex := .seq (.opt (.atom (.char ':'))) (.plus .space)

/-- The part `(.*)` of `reMsg`: the body, group 2. -/
def reBody : Regex := .group 2 (.star .any)

/-- The pattern `(?:<@(.+)>)?(?::?\s+)?(.*)` of `reMsg`. -/
def reMsg : Regex := .seq (.opt reMention) (.seq (.opt reSeparator) reBody)

/-- The trigger pattern `出勤` compiled in `main`. -/
def target : Regex := .seq (.atom (.char '出')) (.atom (.char '勤'))

/-! ## Messages -/

/-- An inbound message (`ResponseMessage`). -/
structure ResponseMessage where
  Type_ : String
  Channel : String
  Ts : String
  User : String
  Text : String
deriving DecidableEq

/-- An outbound message (`RequestMessage`). -/
structure RequestMessage where
  ID : Nat
  Type_ : String
  Channel : String
  Text : String
deriving DecidableEq

/-- `ResponseMessage.TextBody`: the text with the mention removed. -/
def ResponseMessage.TextBody (m : ResponseMessage) : String :=
  let ms := FindStringSubmatch reMsg m.Text
  if h : ms.length = 3 then ms[2] else ""

/-- `ResponseMessage.SpeakerID`: the ID found in the mention. -/
def ResponseMessage.SpeakerID (m : ResponseMessage) : String :=
  let ms := FindStringSubmatch reMsg m.Text
  if h : ms.length = 3 then ms[1] else ""

/-! ## The handshake -/

/-- Go's `map[string]string`: an association list whose keys are distinct. -/
abbrev GoMap := List (String × String)

/-- Reading `m[k]`, with `none` when the key is absent. -/
def mapGet : GoMap → String → Option String
  | [], _ => none
  | (k1, v1) :: rest, k => if k1 = k then some v1 else mapGet rest k

/-- The assignment `m[k] = v`: an existing entry for `k` is overwritten. -/
def mapSet : GoMap → String → String → GoMap
  | [], k, v => [(k, v)]
  | (k1, v1) :: rest, k, v =>
    if k1 = k then (k, v) :: rest else (k1, v1) :: mapSet rest k v

/-- The `self` object of the handshake response. -/
structure SelfInfo where
  ID : String
  Name : String
deriving DecidableEq

/-- An element of `users`. -/
structure UserInfo where
  ID : String
  Name : String
deriving DecidableEq

/-- An element of `channels`. -/
structure ChannelInfo where
  ID : String
  Name : String
  IsMember : Bool
deriving DecidableEq

/-- An element of `ims`. -/
structure ImInfo where
  ID : String
  UserID : String
deriving DecidableEq

/-- The decoded body of the `rtm.start` response (`connectResponse`).  A field
that is absent from the JSON keeps its zero value, so a missing `ok` is `false`. -/
structure connectResponse where
  OK : Bool
  Error : String
  URL : String
  Self : SelfInfo
  Users : List UserInfo
  Channels : List ChannelInfo
  Ims : List ImInfo
deriving DecidableEq

/-- The session (`Bot`).  The socket is represented by the URL it was opened
on, `none` being the nil connection; `counter` is a `uint64`. -/
structure Bot where
  ID : String
  Name : String
  Users : GoMap
  Channels : GoMap
  Ims : GoMap
  socket : Option String
  counter : Nat
deriving DecidableEq

/-- What `http.Get` followed by `Decoder.Decode` can produce: a request error,
or a response with its status code and the outcome of decoding its body. -/
inductive HttpResult where
  | failed (err : String)
  | response (status : Int) (body : Except String connectResponse)

/-- The outside world: how a query value is escaped, what the discovery
endpoint answers, and whether `websocket.Dial` and `websocket.JSON.Send`
fail (`none` is the nil error). -/
structure World where
  queryEscape : String → String
  httpGet : String → HttpResult
  wsDial : String → Option String
  wsSend : RequestMessage → Option String

/-- The verb `%v` applied to an `error` value: a nil error prints as `<nil>`. -/
def fmtV : Option String → String
  | none => "<nil>"
  | some msg => msg

/-- The URL requested by `rtmStart`. -/
def rtmStartURL (w : World) (token : String) : String :=
  "https://slack.com/api/rtm.start?token=" ++ w.queryEscape token

/-- HTTP status 200 (`http.StatusOK`). -/
def StatusOK : Int := 200

/-- `Bot.rtmStart`.  On the response path the variable `err` of `http.Get` is
nil, and it is `err`, not the decode error `e`, that the last `fmt.Errorf`
formats. -/
def rtmStart (w : World) (token : String) : Except String connectResponse :=
  match w.httpGet (rtmStartURL w token) with
  | .failed err => .error err
  | .response status body =>
    let err : Option String := none
    if status ≠ StatusOK then
      .error ("request failed with code " ++ toString status)
    else
      match body with
      | .error _e => .error ("response decode error, " ++ fmtV err)
      | .ok b => .ok b

/-- `Bot.dial`: opens the socket, or reports why it could not. -/
def dial (w : World) (b : Bot) (url : String) : Bot × Option String :=
  match w.wsDial url with
  | some err => (b, some ("dial error, " ++ err))
  | none => ({ b with socket := some url }, none)

/-- `New`.  The first component is the returned pair `(*Bot, error)`: an error
means the returned pointer is nil.  The second component lists the URLs that
were passed to `websocket.Dial`. -/
def New (w : World) (token : String) : Except String Bot × List String :=
  let bot : Bot :=
    { ID := "", Name := "", Users := [], Channels := [], Ims := [], socket := none, counter := 0 }
  match rtmStart w token with
  | .error err => (.error ("api connection error, " ++ err), [])
  | .ok resp =>
    if !resp.OK then
      (.error ("connection error, " ++ resp.Error), [])
    else
      match dial w bot resp.URL with
      | (_, some e) => (.error e, [resp.URL])
      | (bot, none) =>
        let bot := { bot with ID := resp.Self.ID }
        let bot := { bot with Name := resp.Self.Name }
        let bot := resp.Users.foldl (fun (b : Bot) u => { b with Users := mapSet b.Users u.ID u.Name }) bot
        let bot := resp.Channels.foldl
          (fun (b : Bot) c => if c.IsMember then { b with Channels := mapSet b.Channels c.ID c.Name } else b) bot
        let bot := resp.Ims.foldl (fun (b : Bot) im => { b with Ims := mapSet b.Ims im.ID im.UserID }) bot
        (.ok bot, [resp.URL])

/-! ## The streaming session -/

/-- `Bot.GetMessage`.  The argument is what `websocket.JSON.Receive` did: the
message as far as it was filled in, and the error (nil on success). -/
def GetMessage (recv : ResponseMessage × Option String) : ResponseMessage × Option String :=
  let msg := recv.1
  match recv.2 with
  | some e => (msg, some e)
  | none => (msg, none)

/-- `atomic.AddUint64(&b.counter, 1)`: the new value, which is also stored. -/
def addUint64 (counter : Nat) (delta : Nat) : Nat := (counter + delta) % 2 ^ 64

/-- `Bot.PostMessage`: the session after the call, the message handed to the
socket, and the error of the send. -/
def PostMessage (w : World) (b : Bot) (m : RequestMessage) : Bot × RequestMessage × Option String :=
  let n := addUint64 b.counter 1
  let b := { b with counter := n }
  let m := { m with ID := n }
  (b, m, w.wsSend m)

/-- Calls of `PostMessage` whose atomic increments take effect in the order
`order`; call number `i` posts `reqs[i]`.  The result lists, in that order,
each call with the message it sent. -/
def postAll (w : World) (b : Bot) (reqs : List RequestMessage) :
    List Nat → Bot × List (Nat × RequestMessage)
  | [] => (b, [])
  | i :: order =>
    match reqs[i]? with
    | none => postAll w b reqs order
    | some m =>
      let r := PostMessage w b m
      let rest := postAll w r.1 reqs order
      (rest.1, (i, r.2.1) :: rest.2)

/-! ## The dispatch loop -/

/-- What one pass through the body of the loop in `main` does: the lines it
logs and the requests it hands to `PostMessage`, each in a goroutine of its own. -/
structure Iteration where
  log : List String
  spawned : List RequestMessage
deriving DecidableEq

/-- The body of the `for` loop of `main`, given what the receive produced. -/
def loopBody (bot : Bot) (recv : ResponseMessage × Option String) : Iteration :=
  let (msg, err) := GetMessage recv
  let log :=
    match err with
    | some e => ["receive error, " ++ e]
    | none => []
  if bot.ID = msg.SpeakerID then
    { log := log, spawned := [] }
  else if msg.Type_ = "message" then
    if MatchString target msg.TextBody then
      { log := log,
        spawned := [{ ID := 0, Type_ := msg.Type_, Channel := msg.Channel, Text := "出勤を検知" }] }
    else { log := log, spawned := [] }
  else { log := log, spawned := [] }

/-- One iteration of the loop together with the goroutines it started, run to
completion: the session afterwards and the messages sent. -/
def iteration (w : World) (bot : Bot) (recv : ResponseMessage × Option String) :
    Bot × List (Nat × RequestMessage) :=
  let it := loopBody bot recv
  postAll w bot it.spawned (List.range it.spawned.length)

/-! ## Auxiliary definitions for the statements -/

/-- Removal of a leading separator `:?\s+`, when there is one. -/
def stripSep : List Char → List Char
  | [] => []
  | c :: cs =>
    if isSpace c then cs.dropWhile isSpace
    else if c = ':' then
      match cs with
      | [] => c :: cs
      | d :: ds => if isSpace d then ds.dropWhile isSpace else c :: cs
    else c :: cs

/-- The first line of a text. -/
def firstLine (s : List Char) : List Char := s.takeWhile isDot

/-- The captures once the optional mention is dealt with: whole match, body,
and whatever the mention captured. -/
def tailCaps (s0 s : List Char) (c : Caps) : Caps :=
  (0, consumed s0 ((stripSep s).dropWhile isDot)) :: (2, firstLine (stripSep s)) :: c


/-- Whether a text begins with whitespace. -/
def beginsWithSpace : List Char → Bool
  | [] => false
  | c :: _ => isSpace c

/-- Whether a text begins with a colon followed by whitespace. -/
def beginsWithColonSpace : List Char → Bool
  | c :: d :: _ => c == ':' && isSpace d
  | _ => false

/-- Whether a text begins with a separator, as the pattern `:?\s+` reads it. -/
def beginsWithSeparator (t : String) : Bool :=
  beginsWithSpace t.toList || beginsWithColonSpace t.toList

/-- Whether a list of characters is a separator: whitespace, or a colon and whitespace. -/
def isSepList : List Char → Bool
  | [] => false
  | c :: cs => if c = ':' then !cs.isEmpty && cs.all isSpace else (c :: cs).all isSpace

/-- An optional separator: nothing, or what the pattern `:?\s+` matches in full. -/
def isSeparator (sep : String) : Bool := sep.toList.isEmpty || isSepList sep.toList

/-- The text without its leading separator, when it has one. -/
def stripSeparator (t : String) : String := String.mk (stripSep t.toList)

/-! ## Concrete values used in the examples -/

/-- An inbound message of type `message` in channel `C1` from user `U2`. -/
def exampleMessage (text : String) : ResponseMessage :=
  { Type_ := "message", Channel := "C1", Ts := "", User := "U2", Text := text }

/-- A session whose own ID is `B1`, freshly created. -/
def exampleBot : Bot :=
  { ID := "B1", Name := "bot", Users := [], Channels := [], Ims := [],
    socket := some "wss://x", counter := 0 }

/-- The reply `main` builds for a message received in channel `C1`. -/
def exampleReply (id : Nat) : RequestMessage :=
  { ID := id, Type_ := "message", Channel := "C1", Text := "出勤を検知" }

/-- A world in which the discovery request has the given outcome, dialling
succeeds and sending succeeds. -/
def worldWith (r : HttpResult) : World :=
  { queryEscape := id, httpGet := fun _ => r, wsDial := fun _ => none, wsSend := fun _ => none }

/-- The successful handshake response of the specification's scenario. -/
def exampleResponse : connectResponse :=
  { OK := true, Error := "", URL := "wss://x", Self := { ID := "B1", Name := "bot" },
    Users := [],
    Channels := [{ ID := "C1", Name := "general", IsMember := true },
                 { ID := "C2", Name := "random", IsMember := false }],
    Ims := [] }

/-- The failed handshake response of the specification's scenario. -/
def refusedResponse : connectResponse :=
  { OK := false, Error := "invalid_auth", URL := "", Self := { ID := "", Name := "" },
    Users := [], Channels := [], Ims := [] }

/-- The session returned by `New`, if any. -/
def session (r : Except String Bot × List String) : Option Bot :=
  match r.1 with
  | .ok b => some b
  | .error _ => none

/-- The error returned by `New`, if any. -/
def failure (r : Except String Bot × List String) : Option String :=
  match r.1 with
  | .ok _ => none
  | .error e => some e

/-- The value that a loop of assignments `m[key x] = val x` over `l` leaves
under the key `id`: that of the last element of `l` with this key. -/
def lastValue {α : Type} (key val : α → String) (l : List α) (id : String) : Option String :=
  (l.reverse.find? (fun x => key x == id)).map val

/-- Each call of `postAll` with the ID it was assigned, in the order of effect. -/
def assigned (out : Bot × List (Nat × RequestMessage)) : List (Nat × Nat) :=
  out.2.map (fun x => (x.1, x.2.ID))

/-! ## Lemmas on the matcher -/

/-- With a continuation that cannot fail, greedy repetition takes the longest run. -/
theorem starGo_total {α : Type} (p : Char → Bool) (k : List Char → Option α)
    (hk : ∀ s, ∃ r, k s = some r) (s : List Char) :
    starGo p s k = k (s.dropWhile p) := by
  induction s with
  | nil => rfl
  | cons c cs ih =>
    by_cases hc : p c = true
    · obtain ⟨r, hr⟩ := hk (cs.dropWhile p)
      simp [starGo, hc, ih, hr]
    · simp [starGo, hc]

/-- Greedy repetition fails when the continuation fails after every run. -/
theorem starGo_none {α : Type} (p : Char → Bool) (k : List Char → Option α) (s : List Char)
    (h : ∀ a b, s = a ++ b → (∀ c ∈ a, p c = true) → k b = none) :
    starGo p s k = none := by
  induction s with
  | nil => simpa [starGo] using h [] [] rfl (by simp)
  | cons c cs ih =>
    have h0 : k (c :: cs) = none := h [] (c :: cs) rfl (by simp)
    by_cases hc : p c = true
    · have h1 : starGo p cs k = none := by
        apply ih
        intro a b hab ha
        apply h (c :: a) b (by simp [hab])
        intro d hd
        rcases List.mem_cons.1 hd with rfl | hd
        · exact hc
        · exact ha d hd
      simp [starGo, hc, h1, h0]
    · simp [starGo, hc, h0]

/-- Greedy repetition stops after the run `pre` when the continuation succeeds
there and fails after every longer run. -/
theorem starGo_greedy {α : Type} (p : Char → Bool) (k : List Char → Option α)
    (pre post : List Char) (r : α)
    (hpre : ∀ c ∈ pre, p c = true) (hk : k post = some r)
    (hlong : ∀ a b, pre ++ post = a ++ b → pre.length < a.length →
      (∀ c ∈ a, p c = true) → k b = none) :
    starGo p (pre ++ post) k = some r := by
  induction pre with
  | nil =>
    cases post with
    | nil => simpa [starGo] using hk
    | cons c cs =>
      by_cases hc : p c = true
      · have h1 : starGo p cs k = none := by
          apply starGo_none
          intro a b hab ha
          apply hlong (c :: a) b (by simp [hab]) (by simp)
          intro d hd
          rcases List.mem_cons.1 hd with rfl | hd
          · exact hc
          · exact ha d hd
        simp [starGo, hc, h1, hk]
      · simp [starGo, hc, hk]
  | cons c pre ih =>
    have hc : p c = true := hpre c (by simp)
    have h1 : starGo p (pre ++ post) k = some r := by
      apply ih (fun d hd => hpre d (by simp [hd]))
      intro a b hab hlen ha
      apply hlong (c :: a) b (by simp [hab]) (by simpa using hlen)
      intro d hd
      rcases List.mem_cons.1 hd with rfl | hd
      · exact hc
      · exact ha d hd
    simp [starGo, hc, h1]

theorem consumed_append (a b : List Char) : consumed (a ++ b) b = a := by
  simp [consumed]

theorem consumed_dropWhile (p : Char → Bool) (s : List Char) :
    consumed s (s.dropWhile p) = s.takeWhile p := by
  have h := consumed_append (s.takeWhile p) (s.dropWhile p)
  rwa [List.takeWhile_append_dropWhile] at h

/-! ## What `reMsg` matches -/

theorem test_any : Atom.any.test = isDot := by
  funext c
  rfl

theorem test_space : Atom.space.test = isSpace := by
  funext c
  rfl

theorem test_char (c d : Char) : (Atom.char c).test d = (d == c) := rfl

theorem run_reBody (s0 s : List Char) (c : Caps) :
    reBody.run s c (fun s1 c1 => some ((0, consumed s0 s1) :: c1)) =
      some ((0, consumed s0 (s.dropWhile isDot)) :: (2, firstLine s) :: c) := by
  simp only [reBody, Regex.run, test_any]
  rw [starGo_total isDot _ (fun s1 => ⟨_, rfl⟩)]
  simp [consumed_dropWhile, firstLine]

theorem run_optSeparator {α : Type} (k : List Char → Caps → Option α)
    (hk : ∀ s c, ∃ r, k s c = some r) (s : List Char) (c : Caps) :
    (Regex.opt reSeparator).run s c k = k (stripSep s) c := by
  have hk1 : ∀ s, ∃ r, (fun s1 => k s1 c) s = some r := fun s => hk s c
  cases s with
  | nil => simp [reSeparator, Regex.run, stripSep]
  | cons x xs =>
    by_cases hx : isSpace x = true
    · have hne : x ≠ ':' := by
        rintro rfl
        revert hx
        decide
      obtain ⟨r, hr⟩ := hk (xs.dropWhile isSpace) c
      simp [reSeparator, Regex.run, stripSep, test_any, test_space, test_char, hx, hne, starGo_total _ _ hk1, hr]
    · by_cases hcol : x = ':'
      · subst hcol
        cases xs with
        | nil => simp [reSeparator, Regex.run, stripSep, test_any, test_space, test_char, hx]
        | cons d ds =>
          by_cases hd : isSpace d = true
          · obtain ⟨r, hr⟩ := hk (ds.dropWhile isSpace) c
            simp [reSeparator, Regex.run, stripSep, test_any, test_space, test_char, hx, hd, starGo_total _ _ hk1, hr]
          · simp [reSeparator, Regex.run, stripSep, test_any, test_space, test_char, hx, hd]
      · simp [reSeparator, Regex.run, stripSep, test_any, test_space, test_char, hx, hcol]

/-- What follows the optional mention: separator and body. -/
theorem run_tail (s0 s : List Char) (c : Caps) :
    (Regex.seq (.opt reSeparator) reBody).run s c (fun s1 c1 => some ((0, consumed s0 s1) :: c1)) =
      some ((0, consumed s0 ((stripSep s).dropWhile isDot)) :: (2, firstLine (stripSep s)) :: c) := by
  rw [Regex.run]
  rw [run_optSeparator _ (fun s c => ⟨_, run_reBody s0 s c⟩)]
  exact run_reBody s0 _ c

theorem matchAt_reMsg (s : List Char) :
    matchAt reMsg s =
      match reMention.run s [] (fun s1 c1 => some (tailCaps s s1 c1)) with
      | some r => some r
      | none => some (tailCaps s s []) := by
  simp only [matchAt, reMsg]
  rw [Regex.run, Regex.run]
  simp only [run_tail, tailCaps]
  cases reMention.run s []
    (fun s1 c1 => some ((0, consumed s ((stripSep s1).dropWhile isDot)) ::
      (2, firstLine (stripSep s1)) :: c1)) <;> rfl

theorem run_reMention {α : Type} (r : List Char) (k : List Char → Caps → Option α) :
    reMention.run ('<' :: '@' :: r) [] k =
      (Regex.plus .any).run r [] (fun s1 c1 =>
        (Regex.atom (.char '>')).run s1 ((1, consumed r s1) :: c1) k) := by
  simp [reMention, Regex.run, test_char]

theorem takeWhile_append_all (p : Char → Bool) (a b : List Char) (ha : ∀ c ∈ a, p c = true) :
    (a ++ b).takeWhile p = a ++ b.takeWhile p := by
  induction a with
  | nil => rfl
  | cons x xs ih =>
    have hx : p x = true := ha x (by simp)
    simp [List.takeWhile, hx, ih (fun c hc => ha c (by simp [hc]))]

/-- The mention is found, with ID `u`, when `u` is followed by the last `>` of its line. -/
theorem run_reMention_found {α : Type} (u rest : List Char) (k : List Char → Caps → Option α)
    (r : α) (hu : u ≠ []) (hdot : ∀ c ∈ u, isDot c = true)
    (hlast : '>' ∉ firstLine rest) (hk : k rest [(1, u)] = some r) :
    reMention.run ('<' :: '@' :: (u ++ '>' :: rest)) [] k = some r := by
  cases u with
  | nil => exact absurd rfl hu
  | cons x u1 =>
    have hx : isDot x = true := hdot x (by simp)
    rw [run_reMention]
    simp only [List.cons_append, Regex.run, test_any, hx, if_true]
    apply starGo_greedy
    · intro c hc
      exact hdot c (by simp [hc])
    · have hc : consumed (x :: (u1 ++ '>' :: rest)) ('>' :: rest) = x :: u1 := by
        have := consumed_append (x :: u1) ('>' :: rest)
        simpa using this
      simp [Regex.run, test_char, hc, hk]
    · intro a b hab hlen ha
      cases b with
      | nil => simp [Regex.run]
      | cons d ds =>
        by_cases hd : d = '>'
        · exfalso
          subst hd
          rcases List.append_eq_append_iff.1 hab with ⟨a1, h1, h2⟩ | ⟨c1, h1, h2⟩
          · cases a1 with
            | nil => simp [h1] at hlen
            | cons y a2 =>
              simp only [List.cons_append, List.cons.injEq] at h2
              obtain ⟨rfl, h3⟩ := h2
              apply hlast
              have ha2 : ∀ c ∈ a2, isDot c = true := fun c hc => ha c (by simp [h1, hc])
              rw [firstLine, h3, takeWhile_append_all _ _ _ ha2]
              simp [List.takeWhile, isDot]
          · have := congrArg List.length h1
            simp at this
            omega
        · simp [Regex.run, test_char, hd]

/-- The mention is not found unless the text begins `<@u>` with `u` a non-empty
run of characters of one line. -/
theorem run_reMention_none {α : Type} (s : List Char) (k : List Char → Caps → Option α)
    (h : ∀ u rest, u ≠ [] → (∀ c ∈ u, isDot c = true) → s ≠ '<' :: '@' :: (u ++ '>' :: rest)) :
    reMention.run s [] k = none := by
  cases s with
  | nil => simp [reMention, Regex.run]
  | cons x xs =>
    by_cases hx : x = '<'
    swap
    · simp [reMention, Regex.run, test_char, hx]
    subst hx
    cases xs with
    | nil => simp [reMention, Regex.run, test_char]
    | cons y ys =>
      by_cases hy : y = '@'
      swap
      · simp [reMention, Regex.run, test_char, hy]
      subst hy
      rw [run_reMention]
      cases ys with
      | nil => simp [Regex.run]
      | cons z zs =>
        by_cases hz : isDot z = true
        swap
        · simp [Regex.run, test_any, hz]
        simp only [Regex.run, test_any, hz, if_true]
        apply starGo_none
        intro a b hab ha
        cases b with
        | nil => simp [Regex.run]
        | cons d ds =>
          by_cases hd : d = '>'
          · exfalso
            subst hd
            apply h (z :: a) ds (by simp)
            · intro c hc
              rcases List.mem_cons.1 hc with rfl | hc
              · exact hz
              · exact ha c hc
            · simp [hab]
          · simp [Regex.run, test_char, hd]

theorem search_reMsg (s : List Char) : search reMsg s = matchAt reMsg s := by
  have h : ∃ r, matchAt reMsg s = some r := by
    rw [matchAt_reMsg]
    split
    · exact ⟨_, rfl⟩
    · exact ⟨_, rfl⟩
  obtain ⟨r, hr⟩ := h
  cases s with
  | nil => rfl
  | cons c cs => simp [search, hr]

theorem fields_of_caps (m : ResponseMessage) (caps : Caps)
    (h : matchAt reMsg m.Text.toList = some caps) :
    m.SpeakerID = capGet caps 1 ∧ m.TextBody = capGet caps 2 := by
  have hs : search reMsg m.Text.toList = some caps := by rw [search_reMsg, h]
  have hf : FindStringSubmatch reMsg m.Text = [capGet caps 0, capGet caps 1, capGet caps 2] := by
    have hn : reMsg.numSubexp = 2 := rfl
    simp only [FindStringSubmatch, hs, hn]
    rfl
  simp [ResponseMessage.SpeakerID, ResponseMessage.TextBody, hf]

/-- Parsing a text that begins with a mention. -/
theorem parse_mention (m : ResponseMessage) (u rest : List Char)
    (ht : m.Text.toList = '<' :: '@' :: (u ++ '>' :: rest))
    (hu : u ≠ []) (hdot : ∀ c ∈ u, isDot c = true) (hlast : '>' ∉ firstLine rest) :
    m.SpeakerID = String.mk u ∧ m.TextBody = String.mk (firstLine (stripSep rest)) := by
  have h : matchAt reMsg m.Text.toList =
      some (tailCaps m.Text.toList rest [(1, u)]) := by
    rw [matchAt_reMsg, ht, run_reMention_found u rest _ _ hu hdot hlast rfl]
  obtain ⟨h1, h2⟩ := fields_of_caps m _ h
  rw [h1, h2]
  simp [tailCaps, capGet, List.lookup]

/-- Parsing a text that does not begin with a mention. -/
theorem parse_plain (m : ResponseMessage)
    (h : ∀ u rest, u ≠ [] → (∀ c ∈ u, isDot c = true) →
      m.Text.toList ≠ '<' :: '@' :: (u ++ '>' :: rest)) :
    m.SpeakerID = "" ∧ m.TextBody = String.mk (firstLine (stripSep m.Text.toList)) := by
  have h0 : matchAt reMsg m.Text.toList =
      some (tailCaps m.Text.toList m.Text.toList []) := by
    rw [matchAt_reMsg, run_reMention_none _ _ h]
  obtain ⟨h1, h2⟩ := fields_of_caps m _ h0
  rw [h1, h2]
  simp [tailCaps, capGet, List.lookup]

/-! ## What `target` matches -/

theorem matchAt_target (s : List Char) :
    (matchAt target s).isSome = true ↔ "出勤".toList <+: s := by
  have hl : "出勤".toList = ['出', '勤'] := rfl
  rw [hl]
  cases s with
  | nil => simp [matchAt, target, Regex.run]
  | cons x xs =>
    cases xs with
    | nil =>
      by_cases hx : x = '出' <;> simp [matchAt, target, Regex.run, test_char, hx]
    | cons y ys =>
      by_cases hx : x = '出'
      · by_cases hy : y = '勤'
        · simp [matchAt, target, Regex.run, test_char, hx, hy, List.cons_prefix_cons]
        · have hy1 : ¬ '勤' = y := fun h => hy h.symm
          simp [matchAt, target, Regex.run, test_char, hx, hy, hy1, List.cons_prefix_cons]
      · have hx1 : ¬ '出' = x := fun h => hx h.symm
        simp [matchAt, target, Regex.run, test_char, hx, hx1, List.cons_prefix_cons]

theorem search_target (s : List Char) :
    (search target s).isSome = true ↔ "出勤".toList <:+: s := by
  induction s with
  | nil =>
    have hl : "出勤".toList = ['出', '勤'] := rfl
    simp [search, matchAt, target, Regex.run, hl]
  | cons c cs ih =>
    rw [List.infix_cons_iff, ← ih, ← matchAt_target]
    cases h : matchAt target (c :: cs) <;> simp [search, h]

/-- The trigger test of `main` is a substring test. -/
theorem MatchString_target (s : String) :
    MatchString target s = true ↔ "出勤".toList <:+: s.toList :=
  search_target s.toList

/-! ## Lists of characters -/

theorem firstLine_of_no_newline (s : List Char) (h : '\n' ∉ s) : firstLine s = s := by
  unfold firstLine
  rw [List.takeWhile_eq_self_iff]
  intro c hc
  have : c ≠ '\n' := fun e => h (e ▸ hc)
  simp [isDot, this]

theorem mem_of_mem_firstLine (c : Char) (s : List Char) (h : c ∈ firstLine s) : c ∈ s :=
  (List.takeWhile_sublist isDot).subset h

theorem dropWhile_space_append (ws b : List Char) (hws : ∀ c ∈ ws, isSpace c = true)
    (hb : beginsWithSpace b = false) : (ws ++ b).dropWhile isSpace = b := by
  induction ws with
  | nil =>
    cases b with
    | nil => rfl
    | cons x xs =>
      have hx : isSpace x = false := hb
      simp [List.dropWhile, hx]
  | cons x xs ih =>
    have hx : isSpace x = true := hws x (by simp)
    simp [List.dropWhile, hx, ih (fun c hc => hws c (by simp [hc]))]

theorem stripSep_suffix (s : List Char) : stripSep s <:+ s := by
  cases s with
  | nil => exact List.suffix_refl _
  | cons x xs =>
    have h1 : xs.dropWhile isSpace <:+ x :: xs :=
      (List.dropWhile_suffix isSpace).trans (List.suffix_cons x xs)
    by_cases hx : isSpace x = true
    · simpa [stripSep, hx] using h1
    · by_cases hcol : x = ':'
      · subst hcol
        cases xs with
        | nil => simp [stripSep, hx]
        | cons d ds =>
          have h2 : ds.dropWhile isSpace <:+ ':' :: d :: ds :=
            (List.dropWhile_suffix isSpace).trans
              ((List.suffix_cons d ds).trans (List.suffix_cons ':' (d :: ds)))
          by_cases hd : isSpace d = true
          · simpa [stripSep, hx, hd] using h2
          · simp [stripSep, hx, hd]
      · simp [stripSep, hx, hcol]

theorem stripSep_self (b : List Char) (hb : beginsWithSpace b = false)
    (hbc : beginsWithColonSpace b = false) : stripSep b = b := by
  cases b with
  | nil => rfl
  | cons x xs =>
    have hx : isSpace x = false := hb
    by_cases hcol : x = ':'
    · subst hcol
      cases xs with
      | nil => simp [stripSep, hx]
      | cons d ds =>
        have hd : isSpace d = false := by simpa [beginsWithColonSpace] using hbc
        simp [stripSep, hx, hd]
    · simp [stripSep, hx, hcol]

theorem stripSep_sep (sep b : List Char) (hsep : isSepList sep = true)
    (hb : beginsWithSpace b = false) : stripSep (sep ++ b) = b := by
  cases sep with
  | nil => simp [isSepList] at hsep
  | cons x xs =>
    by_cases hcol : x = ':'
    · subst hcol
      have hx : isSpace ':' = false := by decide
      cases xs with
      | nil => simp [isSepList] at hsep
      | cons d ds =>
        simp only [isSepList, if_true, List.isEmpty_cons, Bool.not_false, Bool.true_and,
          List.all_cons, Bool.and_eq_true, List.all_eq_true] at hsep
        simp [stripSep, hx, hsep.1, dropWhile_space_append ds b hsep.2 hb]
    · simp only [isSepList, hcol, if_false, List.all_cons, Bool.and_eq_true,
        List.all_eq_true] at hsep
      simp [stripSep, hsep.1, dropWhile_space_append xs b hsep.2 hb]

theorem gt_not_mem_sep (sep : List Char) (hsep : isSepList sep = true) : '>' ∉ sep := by
  have key : ∀ l : List Char, l.all isSpace = true → '>' ∉ l := by
    intro l hl hmem
    rw [List.all_eq_true] at hl
    have := hl _ hmem
    revert this
    decide
  cases sep with
  | nil => simp
  | cons x xs =>
    by_cases hcol : x = ':'
    · subst hcol
      simp only [isSepList, if_true, Bool.and_eq_true] at hsep
      intro hmem
      rcases List.mem_cons.1 hmem with h | h
      · revert h
        decide
      · exact key xs hsep.2 h
    · simp only [isSepList, hcol, if_false] at hsep
      exact key _ hsep

/-! ## Parsing of the message text -/

theorem toList_mention_text (u rest : String) :
    ("<@" ++ u ++ ">" ++ rest).toList = '<' :: '@' :: (u.toList ++ '>' :: rest.toList) := by
  have h1 : "<@".toList = ['<', '@'] := rfl
  have h2 : ">".toList = ['>'] := rfl
  simp only [String.toList] at h1 h2 ⊢
  simp [String.data_append, h1, h2]

theorem toList_ne_nil (u : String) (hu : u ≠ "") : u.toList ≠ [] := by
  intro h
  apply hu
  cases u with
  | mk d =>
    simp only [String.toList] at h
    subst h
    rfl

theorem isDot_of_no_newline (s : List Char) (h : '\n' ∉ s) : ∀ c ∈ s, isDot c = true := by
  intro c hc
  have : c ≠ '\n' := fun e => h (e ▸ hc)
  simp [isDot, this]

/-- Where the greedy `(.+)` has a single `>` to stop at, the text parses as
its parts read: a mention `<@u>`, an optional separator and a body `b` without
`>` and without line break give speaker `u` and body `b`. -/
theorem parse_mention_text (m : ResponseMessage) (u sep b : String)
    (ht : m.Text = "<@" ++ u ++ ">" ++ sep ++ b)
    (hu : u ≠ "") (hul : '\n' ∉ u.toList)
    (hsep : isSeparator sep = true)
    (hb : beginsWithSpace b.toList = false)
    (hbc : sep = "" → beginsWithColonSpace b.toList = false)
    (hgt : '>' ∉ b.toList) (hbl : '\n' ∉ b.toList) :
    m.SpeakerID = u ∧ m.TextBody = b := by
  have htl : m.Text.toList = '<' :: '@' :: (u.toList ++ '>' :: (sep.toList ++ b.toList)) := by
    rw [ht, String.append_assoc, toList_mention_text]
    simp [String.toList, String.data_append]
  have hstrip : stripSep (sep.toList ++ b.toList) = b.toList := by
    by_cases hnil : sep.toList = []
    · have hs : sep = "" := by
        by_contra hne
        exact toList_ne_nil sep hne hnil
      rw [hnil, List.nil_append]
      exact stripSep_self _ hb (hbc hs)
    · have hs : isSepList sep.toList = true := by
        have := hsep
        simp only [isSeparator, Bool.or_eq_true, List.isEmpty_iff] at this
        rcases this with h | h
        · exact absurd h hnil
        · exact h
      exact stripSep_sep _ _ hs hb
  have hlast : '>' ∉ firstLine (sep.toList ++ b.toList) := by
    intro hmem
    rcases List.mem_append.1 (mem_of_mem_firstLine _ _ hmem) with h | h
    · by_cases hnil : sep.toList = []
      · rw [hnil] at h
        simp at h
      · have hs : isSepList sep.toList = true := by
          have := hsep
          simp only [isSeparator, Bool.or_eq_true, List.isEmpty_iff] at this
          rcases this with h | h
          · exact absurd h hnil
          · exact h
        exact gt_not_mem_sep _ hs h
    · exact hgt h
  obtain ⟨h1, h2⟩ := parse_mention m u.toList (sep.toList ++ b.toList) htl
    (toList_ne_nil u hu) (isDot_of_no_newline _ hul) hlast
  rw [h1, h2, hstrip, firstLine_of_no_newline _ hbl]
  exact ⟨rfl, rfl⟩

/-- A text that begins with no mention marker at all does not begin with one
the pattern can match. -/
theorem no_mention_of_text (t : String)
    (h : ¬ ∃ u rest : String, u ≠ "" ∧ t = "<@" ++ u ++ ">" ++ rest) :
    ∀ u rest : List Char, u ≠ [] → (∀ c ∈ u, isDot c = true) →
      t.toList ≠ '<' :: '@' :: (u ++ '>' :: rest) := by
  intro u rest hu _ heq
  apply h
  refine ⟨String.mk u, String.mk rest, ?_, ?_⟩
  · intro hc
    apply hu
    have := congrArg String.toList hc
    simpa using this
  · apply String.ext
    have h3 := toList_mention_text (String.mk u) (String.mk rest)
    simp only [String.toList] at h3 heq
    rw [h3, heq]

/-- C7, as amended: for a text without line break that does not begin with a
mention marker, the speaker is empty and the body is the text without its
leading separator (whitespace, or a colon and whitespace); the body is the
whole text when the text begins with no such separator. -/
theorem plain_text_parses (m : ResponseMessage)
    (hno : ¬ ∃ u rest : String, u ≠ "" ∧ m.Text = "<@" ++ u ++ ">" ++ rest)
    (hnl : '\n' ∉ m.Text.toList) :
    m.SpeakerID = "" ∧ m.TextBody = stripSeparator m.Text ∧
      (beginsWithSeparator m.Text = false → m.TextBody = m.Text) := by
  obtain ⟨h1, h2⟩ := parse_plain m (no_mention_of_text m.Text hno)
  have hsub : '\n' ∉ stripSep m.Text.toList :=
    fun hmem => hnl ((stripSep_suffix m.Text.toList).subset hmem)
  have h3 : m.TextBody = stripSeparator m.Text := by
    rw [h2, firstLine_of_no_newline _ hsub]
    rfl
  refine ⟨h1, h3, ?_⟩
  intro hs
  simp only [beginsWithSeparator, Bool.or_eq_false_iff] at hs
  rw [h3, stripSeparator, stripSep_self _ hs.1 hs.2]
  rfl

/-- The text `<@U1> hello` has speaker `U1` and body `hello`. -/
theorem parse_mention_text_hello :
    (exampleMessage "<@U1> hello").SpeakerID = "U1" ∧
      (exampleMessage "<@U1> hello").TextBody = "hello" :=
  parse_mention_text (exampleMessage "<@U1> hello") "U1" " " "hello"
    (by decide) (by decide) (by decide) (by decide) (by decide) (by decide) (by decide)
    (by decide)

/-- C6 at the failing input: the text `<@U1> a>b` is the mention of `U1`, a
blank and the body `a>b`, where `U1` is non-empty and `a>b` does not begin with
whitespace; the greedy `(.+)` runs on to the last `>` of the line, so that
`SpeakerID` returns `U1> a`, which is not the ID of the speaker, and `TextBody`
returns `b`. -/
theorem mention_greedy :
    (exampleMessage "<@U1> a>b").Text = "<@" ++ "U1" ++ ">" ++ " " ++ "a>b" ∧
      "U1" ≠ "" ∧ beginsWithSpace "a>b".toList = false ∧ isSeparator " " = true ∧
      (exampleMessage "<@U1> a>b").SpeakerID = "U1> a" ∧
      (exampleMessage "<@U1> a>b").TextBody = "b" ∧
      (exampleMessage "<@U1> a>b").SpeakerID ≠ "U1" ∧
      (exampleMessage "<@U1> a>b").TextBody ≠ "a>b" := by
  decide

theorem not_mention_of_head (t : String) (c : Char) (cs : List Char)
    (ht : t.toList = c :: cs) (hc : c ≠ '<') :
    ¬ ∃ u rest : String, u ≠ "" ∧ t = "<@" ++ u ++ ">" ++ rest := by
  rintro ⟨u, rest, _, h⟩
  have h2 := toList_mention_text u rest
  rw [← h, ht] at h2
  simp only [List.cons.injEq] at h2
  exact hc h2.1

theorem not_mention_of_empty :
    ¬ ∃ u rest : String, u ≠ "" ∧ "" = "<@" ++ u ++ ">" ++ rest := by
  rintro ⟨u, rest, _, h⟩
  have h2 := toList_mention_text u rest
  rw [← h] at h2
  simp at h2

/-- Witness of C7: `hello` has an empty speaker and body `hello`; the empty
text has an empty speaker and an empty body. -/
theorem plain_text_parses_witness :
    ((exampleMessage "hello").SpeakerID = "" ∧
      (exampleMessage "hello").TextBody = stripSeparator "hello" ∧
      (beginsWithSeparator "hello" = false → (exampleMessage "hello").TextBody = "hello")) ∧
    ((exampleMessage "").SpeakerID = "" ∧
      (exampleMessage "").TextBody = stripSeparator "" ∧
      (beginsWithSeparator "" = false → (exampleMessage "").TextBody = "")) :=
  ⟨plain_text_parses (exampleMessage "hello")
      (not_mention_of_head "hello" 'h' "ello".toList rfl (by decide)) (by decide),
    plain_text_parses (exampleMessage "") not_mention_of_empty (by decide)⟩

/-- C7 as stated fails: the text ` hello` does not begin with a mention marker,
yet its body is `hello` and not the entire text. -/
theorem plain_text_counterexample :
    (¬ ∃ u rest : String, u ≠ "" ∧ (exampleMessage " hello").Text = "<@" ++ u ++ ">" ++ rest) ∧
      (exampleMessage " hello").SpeakerID = "" ∧
      (exampleMessage " hello").TextBody = "hello" ∧
      (exampleMessage " hello").TextBody ≠ (exampleMessage " hello").Text :=
  ⟨not_mention_of_head " hello" ' ' "hello".toList rfl (by decide), by decide, by decide,
    by decide⟩

/-! ## The dispatch loop -/

theorem postAll_nil (w : World) (b : Bot) (reqs : List RequestMessage) :
    postAll w b reqs [] = (b, []) := rfl

/-- C2: when the speaker found in the text is not the session itself, one
iteration of the loop sends exactly when the type is `message` and the body
contains the trigger `出勤`; it then sends one message, with the type and the
channel of the inbound one and the text `出勤を検知`; otherwise it sends nothing. -/
theorem dispatch_reply (w : World) (bot : Bot) (msg : ResponseMessage) (err : Option String)
    (h : msg.SpeakerID ≠ bot.ID) :
    ((msg.Type_ = "message" ∧ "出勤".toList <:+: msg.TextBody.toList) →
      (loopBody bot (msg, err)).spawned =
          [{ ID := 0, Type_ := msg.Type_, Channel := msg.Channel, Text := "出勤を検知" }] ∧
        (iteration w bot (msg, err)).2 =
          [(0, { ID := addUint64 bot.counter 1, Type_ := msg.Type_, Channel := msg.Channel,
                 Text := "出勤を検知" })]) ∧
    (¬ (msg.Type_ = "message" ∧ "出勤".toList <:+: msg.TextBody.toList) →
      (loopBody bot (msg, err)).spawned = [] ∧ (iteration w bot (msg, err)).2 = []) := by
  have hne : ¬ bot.ID = msg.SpeakerID := fun e => h e.symm
  have hget : GetMessage (msg, err) = (msg, err) := by
    cases err <;> rfl
  constructor
  · rintro ⟨ht, hb⟩
    have hm : MatchString target msg.TextBody = true := (MatchString_target _).2 hb
    have hs : (loopBody bot (msg, err)).spawned =
        [{ ID := 0, Type_ := msg.Type_, Channel := msg.Channel, Text := "出勤を検知" }] := by
      simp [loopBody, hget, hne, ht, hm]
    refine ⟨hs, ?_⟩
    simp [iteration, hs, postAll, PostMessage, List.range, List.range.loop]
  · intro hc
    have hs : (loopBody bot (msg, err)).spawned = [] := by
      by_cases ht : msg.Type_ = "message"
      · have hm : MatchString target msg.TextBody = false := by
          cases hmm : MatchString target msg.TextBody
          · rfl
          · exact absurd ⟨ht, (MatchString_target _).1 hmm⟩ hc
        simp [loopBody, hget, hne, ht, hm]
      · simp [loopBody, hget, hne, ht]
    refine ⟨hs, ?_⟩
    simp [iteration, hs, postAll]

/-- Witness of C2: the message of type `message` in channel `C1` from `U2`
with text `出勤` makes the session `B1` send one reply. -/
theorem dispatch_reply_witness :
    (exampleMessage "出勤").SpeakerID ≠ exampleBot.ID ∧
      (loopBody exampleBot (exampleMessage "出勤", none)).spawned = [exampleReply 0] :=
  ⟨by decide,
    ((dispatch_reply
      (worldWith (.failed "no route to host"))
      exampleBot (exampleMessage "出勤") none (by decide)).1 (by decide)).1⟩

/-- C3: when the speaker found in the text is the session itself, one
iteration of the loop sends nothing and leaves the counter as it was. -/
theorem dispatch_self_suppressed (w : World) (bot : Bot) (msg : ResponseMessage)
    (err : Option String) (h : msg.SpeakerID = bot.ID) :
    (loopBody bot (msg, err)).spawned = [] ∧
      (iteration w bot (msg, err)).2 = [] ∧
      (iteration w bot (msg, err)).1.counter = bot.counter := by
  have hget : GetMessage (msg, err) = (msg, err) := by
    cases err <;> rfl
  have hs : (loopBody bot (msg, err)).spawned = [] := by
    simp [loopBody, hget, h]
  simp [iteration, hs, postAll]

/-- Witness of C3: a message that mentions `B1` is not answered by the session `B1`. -/
theorem dispatch_self_suppressed_witness :
    (exampleMessage "<@B1> 出勤").SpeakerID = exampleBot.ID ∧
      (loopBody exampleBot (exampleMessage "<@B1> 出勤", none)).spawned = [] :=
  ⟨by decide,
    (dispatch_self_suppressed
      (worldWith (.failed "no route to host"))
      exampleBot (exampleMessage "<@B1> 出勤") none (by decide)).1⟩

/-- C8 at the failing input: a frame whose `ts` is a number makes the receive
fail after the other fields are filled in, and the loop still sends a reply. -/
theorem receive_error_still_dispatched :
    (loopBody exampleBot
        (exampleMessage "出勤",
          some "json: cannot unmarshal number into Go struct field ResponseMessage.ts of type string")).spawned
      = [exampleReply 0] := by
  decide

/-- C10 at the failing input: the reply of the session `B1`, coming back with
`B1` as its user, is not discarded and is answered with another reply. -/
theorem own_reply_answered :
    ({ Type_ := "message", Channel := "C1", Ts := "", User := "B1",
       Text := "出勤を検知" } : ResponseMessage).SpeakerID = "" ∧
    (loopBody exampleBot
        ({ Type_ := "message", Channel := "C1", Ts := "", User := "B1", Text := "出勤を検知" },
          none)).spawned = [exampleReply 0] := by
  decide

/-! ## Sequence numbers -/

/-- The calls of `postAll` and their IDs: the call whose increment is the
`j`-th to take effect is assigned `counter + j + 1` modulo `2 ^ 64`. -/
theorem assigned_postAll (w : World) (reqs : List RequestMessage) (order : List Nat)
    (b : Bot) (hvalid : ∀ i ∈ order, i < reqs.length) :
    assigned (postAll w b reqs order) =
      order.zip ((List.range order.length).map (fun j => (b.counter + j + 1) % 2 ^ 64)) := by
  induction order generalizing b with
  | nil => rfl
  | cons i order ih =>
    have hi : i < reqs.length := hvalid i (by simp)
    have hget : reqs[i]? = some reqs[i] := List.getElem?_eq_getElem hi
    have ih1 := ih (PostMessage w b reqs[i]).1 (fun j hj => hvalid j (by simp [hj]))
    simp only [assigned] at ih1 ⊢
    simp only [postAll, hget, List.map_cons, ih1, List.length_cons, List.range_succ_eq_map,
      List.zip_cons_cons, List.map_map]
    congr 1
    congr 1
    apply List.map_congr_left
    intro j _
    simp only [Function.comp, PostMessage, addUint64]
    rw [Nat.add_assoc ((b.counter + 1) % 2 ^ 64), Nat.add_mod, Nat.mod_mod, ← Nat.add_mod]
    congr 1
    omega

theorem ids_small (n : Nat) (hn : n < 2 ^ 64) :
    (List.range n).map (fun j => (0 + j + 1) % 2 ^ 64) = List.range' 1 n := by
  rw [List.range'_eq_map_range]
  apply List.map_congr_left
  intro j hj
  have hj1 : j < n := List.mem_range.1 hj
  have : 0 + j + 1 < 2 ^ 64 := by omega
  rw [Nat.mod_eq_of_lt this]
  omega

theorem zip_map_self (l : List Nat) (f : Nat → Nat) :
    l.zip (l.map f) = l.map (fun x => (x, f x)) := by
  induction l with
  | nil => rfl
  | cons x xs ih => simp [ih]

/-- C1, as amended: on a session whose counter is 0, fewer than `2 ^ 64` calls
of `PostMessage` are assigned, whatever the order in which their increments
take effect, the IDs `1, 2, ..., N` in that order: every call gets one ID, no ID
is given twice, the IDs are exactly those from 1 to `N`, each is greater than
the one before, and when the calls take effect in sequence call `k` (counting
from 0) gets ID `k + 1`. -/
theorem sequence_numbers (w : World) (bot : Bot) (reqs : List RequestMessage)
    (order : List Nat) (h0 : bot.counter = 0)
    (hperm : order.Perm (List.range reqs.length)) (hN : reqs.length < 2 ^ 64) :
    (assigned (postAll w bot reqs order)).map Prod.fst = order ∧
      (assigned (postAll w bot reqs order)).map Prod.snd = List.range' 1 reqs.length ∧
      ((assigned (postAll w bot reqs order)).map Prod.snd).Nodup ∧
      (∀ k, k ∈ (assigned (postAll w bot reqs order)).map Prod.snd ↔
        1 ≤ k ∧ k ≤ reqs.length) ∧
      ((assigned (postAll w bot reqs order)).map Prod.snd).Pairwise (fun a b => a < b) ∧
      (order = List.range reqs.length →
        assigned (postAll w bot reqs order) =
          (List.range reqs.length).map (fun k => (k, k + 1))) := by
  have hvalid : ∀ i ∈ order, i < reqs.length :=
    fun i hi => List.mem_range.1 (hperm.subset hi)
  have hlen : order.length = reqs.length := by
    simpa using hperm.length_eq
  have hA := assigned_postAll w reqs order bot hvalid
  rw [h0, hlen, ids_small _ hN] at hA
  have hfst : (assigned (postAll w bot reqs order)).map Prod.fst = order := by
    rw [hA]
    apply List.map_fst_zip
    simp [hlen]
  have hsnd : (assigned (postAll w bot reqs order)).map Prod.snd = List.range' 1 reqs.length := by
    rw [hA]
    apply List.map_snd_zip
    simp [hlen]
  refine ⟨hfst, hsnd, ?_, ?_, ?_, ?_⟩
  · rw [hsnd]
    exact List.nodup_range' 1 reqs.length
  · intro k
    rw [hsnd, List.mem_range'_1]
    omega
  · rw [hsnd]
    exact List.pairwise_lt_range' 1 reqs.length
  · intro ho
    rw [hA, ho, List.range'_eq_map_range, zip_map_self]
    apply List.map_congr_left
    intro k _
    simp [Nat.add_comm]

/-- Witness of C1: three calls whose increments take effect in the order
2, 0, 1 are assigned the IDs 1, 2, 3. -/
theorem sequence_numbers_witness :
    assigned (postAll (worldWith (.failed "no route to host")) exampleBot
        [exampleReply 0, exampleReply 0, exampleReply 0] [2, 0, 1]) = [(2, 1), (0, 2), (1, 3)] ∧
      (assigned (postAll (worldWith (.failed "no route to host")) exampleBot
        [exampleReply 0, exampleReply 0, exampleReply 0] [2, 0, 1])).map Prod.snd =
          List.range' 1 3 :=
  ⟨by decide,
    (sequence_numbers (worldWith (.failed "no route to host")) exampleBot
      [exampleReply 0, exampleReply 0, exampleReply 0] [2, 0, 1] rfl (by decide)
      (by decide)).2.1⟩

/-- The last of `n` calls made in sequence. -/
theorem last_call_id (w : World) (b : Bot) (req : RequestMessage) (n : Nat) (hn : 0 < n) :
    (n - 1, (b.counter + (n - 1) + 1) % 2 ^ 64) ∈
      assigned (postAll w b (List.replicate n req) (List.range n)) := by
  have hvalid : ∀ i ∈ List.range n, i < (List.replicate n req).length := by
    intro i hi
    rw [List.length_replicate]
    exact List.mem_range.1 hi
  rw [assigned_postAll w _ _ b hvalid, List.length_range, zip_map_self]
  exact List.mem_map.2 ⟨n - 1, List.mem_range.2 (by omega), rfl⟩

/-- C1 as stated fails for `N = 2 ^ 64`: on a session whose counter is 0, the
last of `2 ^ 64` calls made in sequence is assigned the ID 0. -/
theorem sequence_numbers_counterexample :
    (2 ^ 64 - 1, 0) ∈
      assigned (postAll (worldWith (.failed "no route to host")) exampleBot
        (List.replicate (2 ^ 64) (exampleReply 0)) (List.range (2 ^ 64))) := by
  have h := last_call_id (worldWith (.failed "no route to host")) exampleBot (exampleReply 0)
    (2 ^ 64) (by decide)
  have e : (exampleBot.counter + (2 ^ 64 - 1) + 1) % 2 ^ 64 = 0 := by decide
  rw [e] at h
  exact h

/-! ## The handshake -/

theorem mapGet_mapSet (m : GoMap) (k v k1 : String) :
    mapGet (mapSet m k v) k1 = if k = k1 then some v else mapGet m k1 := by
  induction m with
  | nil => simp [mapSet, mapGet]
  | cons p rest ih =>
    obtain ⟨a, b⟩ := p
    by_cases ha : a = k
    · subst ha
      by_cases h1 : a = k1 <;> simp [mapSet, mapGet, h1]
    · by_cases h1 : a = k1
      · subst h1
        have hk : ¬ k = a := fun e => ha e.symm
        simp [mapSet, mapGet, ha, hk]
      · simp [mapSet, mapGet, ha, h1, ih]

/-- Reading a map filled by a loop of assignments: the last element with the
key decides. -/
theorem mapGet_foldl {α : Type} (key val : α → String) (l : List α) (m : GoMap) (id : String) :
    mapGet (l.foldl (fun acc x => mapSet acc (key x) (val x)) m) id =
      match l.reverse.find? (fun x => key x == id) with
      | some x => some (val x)
      | none => mapGet m id := by
  induction l generalizing m with
  | nil => rfl
  | cons x xs ih =>
    rw [List.foldl_cons, ih, List.reverse_cons, List.find?_append]
    cases h : xs.reverse.find? (fun x => key x == id) with
    | some y => rfl
    | none =>
      by_cases hx : key x = id
      · simp [mapGet_mapSet, hx]
      · simp [mapGet_mapSet, hx]

theorem foldl_users (us : List UserInfo) (b : Bot) :
    us.foldl (fun (b : Bot) u => { b with Users := mapSet b.Users u.ID u.Name }) b =
      { b with Users := us.foldl (fun acc u => mapSet acc u.ID u.Name) b.Users } := by
  induction us generalizing b with
  | nil => rfl
  | cons u us ih => simp [List.foldl_cons, ih]

theorem foldl_ims (ims : List ImInfo) (b : Bot) :
    ims.foldl (fun (b : Bot) im => { b with Ims := mapSet b.Ims im.ID im.UserID }) b =
      { b with Ims := ims.foldl (fun acc im => mapSet acc im.ID im.UserID) b.Ims } := by
  induction ims generalizing b with
  | nil => rfl
  | cons u us ih => simp [List.foldl_cons, ih]

theorem foldl_channels (cs : List ChannelInfo) (b : Bot) :
    cs.foldl (fun (b : Bot) c =>
        if c.IsMember then { b with Channels := mapSet b.Channels c.ID c.Name } else b) b =
      { b with Channels := (List.foldl (fun acc c => mapSet acc c.ID c.Name) b.Channels
          (cs.filter (fun c => c.IsMember))) } := by
  induction cs generalizing b with
  | nil => rfl
  | cons c cs ih =>
    by_cases hc : c.IsMember = true
    · simp [List.foldl_cons, ih, hc, List.filter_cons]
    · simp [List.foldl_cons, ih, hc, List.filter_cons]

theorem mapGet_foldl_nil {α : Type} (key val : α → String) (l : List α) (id : String) :
    mapGet (l.foldl (fun acc x => mapSet acc (key x) (val x)) []) id = lastValue key val l id := by
  rw [mapGet_foldl, lastValue]
  cases l.reverse.find? (fun x => key x == id) <;> rfl

theorem lastValue_some {α : Type} (key val : α → String) (l : List α) (id v : String)
    (h : lastValue key val l id = some v) : ∃ x ∈ l, key x = id ∧ val x = v := by
  unfold lastValue at h
  cases hf : l.reverse.find? (fun x => key x == id) with
  | none => simp [hf] at h
  | some x =>
    rw [hf] at h
    have hmem : x ∈ l := List.mem_reverse.1 (List.mem_of_find?_eq_some hf)
    have hkey : key x = id := by simpa using List.find?_some hf
    exact ⟨x, hmem, hkey, by simpa using h⟩

theorem lastValue_of_mem {α : Type} (key val : α → String) (l : List α) (x : α) (hx : x ∈ l) :
    ∃ y ∈ l, key y = key x ∧ lastValue key val l (key x) = some (val y) := by
  unfold lastValue
  cases hf : l.reverse.find? (fun y => key y == key x) with
  | none =>
    have := List.find?_eq_none.1 hf x (List.mem_reverse.2 hx)
    simp at this
  | some y =>
    have hmem : y ∈ l := List.mem_reverse.1 (List.mem_of_find?_eq_some hf)
    have hkey : key y = key x := by simpa using List.find?_some hf
    exact ⟨y, hmem, hkey, rfl⟩

theorem New_ok (w : World) (token : String) (resp : connectResponse)
    (hr : rtmStart w token = .ok resp) (hok : resp.OK = true)
    (hd : w.wsDial resp.URL = none) :
    New w token =
      (.ok { ID := resp.Self.ID, Name := resp.Self.Name,
             Users := resp.Users.foldl (fun acc u => mapSet acc u.ID u.Name) [],
             Channels := (resp.Channels.filter (fun c => c.IsMember)).foldl
               (fun acc c => mapSet acc c.ID c.Name) [],
             Ims := resp.Ims.foldl (fun acc im => mapSet acc im.ID im.UserID) [],
             socket := some resp.URL, counter := 0 }, [resp.URL]) := by
  simp [New, hr, hok, dial, hd, foldl_users, foldl_channels, foldl_ims]

/-- C4: after a successful handshake the session has the ID and the name of
the response's `self`; a channel ID is a key of `Channels` exactly when the
response lists a channel with that ID that the bot is a member of; every ID of
a reported user is a key of `Users`, every ID of a reported direct-message
session a key of `Ims`; and each of the three maps holds, under a key, what the
response reports for it (the last report, should the response repeat an ID),
and nothing else. -/
theorem New_session (w : World) (token : String) (resp : connectResponse)
    (hr : rtmStart w token = .ok resp) (hok : resp.OK = true)
    (hd : w.wsDial resp.URL = none) :
    ∃ bot, (New w token).1 = .ok bot ∧
      bot.ID = resp.Self.ID ∧ bot.Name = resp.Self.Name ∧
      (∀ id, (∃ name, mapGet bot.Channels id = some name) ↔
        ∃ c ∈ resp.Channels, c.ID = id ∧ c.IsMember = true) ∧
      (∀ id, mapGet bot.Channels id =
        lastValue (fun c => c.ID) (fun c => c.Name)
          (resp.Channels.filter (fun c => c.IsMember)) id) ∧
      (∀ id name, mapGet bot.Channels id = some name →
        ∃ c ∈ resp.Channels, c.ID = id ∧ c.IsMember = true ∧ c.Name = name) ∧
      (∀ u ∈ resp.Users, ∃ v ∈ resp.Users, v.ID = u.ID ∧ mapGet bot.Users u.ID = some v.Name) ∧
      (∀ id, mapGet bot.Users id = lastValue (fun u => u.ID) (fun u => u.Name) resp.Users id) ∧
      (∀ id name, mapGet bot.Users id = some name →
        ∃ u ∈ resp.Users, u.ID = id ∧ u.Name = name) ∧
      (∀ i ∈ resp.Ims, ∃ j ∈ resp.Ims, j.ID = i.ID ∧ mapGet bot.Ims i.ID = some j.UserID) ∧
      (∀ id, mapGet bot.Ims id = lastValue (fun i => i.ID) (fun i => i.UserID) resp.Ims id) ∧
      (∀ id user, mapGet bot.Ims id = some user →
        ∃ i ∈ resp.Ims, i.ID = id ∧ i.UserID = user) := by
  refine ⟨_, congrArg Prod.fst (New_ok w token resp hr hok hd), rfl, rfl, ?_⟩
  simp only
  have hC := mapGet_foldl_nil (fun c : ChannelInfo => c.ID) (fun c => c.Name)
    (resp.Channels.filter (fun c => c.IsMember))
  have hU := mapGet_foldl_nil (fun u : UserInfo => u.ID) (fun u => u.Name) resp.Users
  have hI := mapGet_foldl_nil (fun i : ImInfo => i.ID) (fun i => i.UserID) resp.Ims
  have hCsome : ∀ id name, lastValue (fun c : ChannelInfo => c.ID) (fun c => c.Name)
      (resp.Channels.filter (fun c => c.IsMember)) id = some name →
      ∃ c ∈ resp.Channels, c.ID = id ∧ c.IsMember = true ∧ c.Name = name := by
    intro id name h
    obtain ⟨c, hc, h1, h2⟩ := lastValue_some _ _ _ _ _ h
    rw [List.mem_filter] at hc
    exact ⟨c, hc.1, h1, by simpa using hc.2, h2⟩
  refine ⟨?_, hC, ?_, ?_, hU, ?_, ?_, hI, ?_⟩
  · intro id
    constructor
    · rintro ⟨name, h⟩
      rw [hC] at h
      obtain ⟨c, hc, h1, h2, _⟩ := hCsome id name h
      exact ⟨c, hc, h1, h2⟩
    · rintro ⟨c, hc, h1, h2⟩
      have hmem : c ∈ resp.Channels.filter (fun c => c.IsMember) :=
        List.mem_filter.2 ⟨hc, by simpa using h2⟩
      obtain ⟨y, _, _, h3⟩ := lastValue_of_mem (fun c : ChannelInfo => c.ID) (fun c => c.Name)
        _ c hmem
      rw [hC, ← h1]
      exact ⟨_, h3⟩
  · intro id name h
    rw [hC] at h
    exact hCsome id name h
  · intro u hu
    obtain ⟨y, hy, h1, h3⟩ := lastValue_of_mem (fun u : UserInfo => u.ID) (fun u => u.Name)
      _ u hu
    exact ⟨y, hy, h1, by rw [hU]; exact h3⟩
  · intro id name h
    rw [hU] at h
    exact lastValue_some _ _ _ _ _ h
  · intro i hi
    obtain ⟨y, hy, h1, h3⟩ := lastValue_of_mem (fun i : ImInfo => i.ID) (fun i => i.UserID)
      _ i hi
    exact ⟨y, hy, h1, by rw [hI]; exact h3⟩
  · intro id user h
    rw [hI] at h
    exact lastValue_some _ _ _ _ _ h

/-- Witness of C4: the response with channels `C1` (member) and `C2` (not a
member) yields the session `B1` whose `Channels` is the single entry for `C1`. -/
theorem New_session_witness :
    rtmStart (worldWith (.response 200 (.ok exampleResponse))) "xoxb-token" = .ok exampleResponse ∧
      (session (New (worldWith (.response 200 (.ok exampleResponse))) "xoxb-token")).map
        (fun b => b.Channels) = some [("C1", "general")] ∧
      ∃ bot, (New (worldWith (.response 200 (.ok exampleResponse))) "xoxb-token").1 = .ok bot ∧
        bot.ID = "B1" ∧ bot.Name = "bot" ∧
        ∀ id, (∃ name, mapGet bot.Channels id = some name) ↔
          ∃ c ∈ exampleResponse.Channels, c.ID = id ∧ c.IsMember = true :=
  ⟨rfl, by decide,
    match New_session (worldWith (.response 200 (.ok exampleResponse))) "xoxb-token"
      exampleResponse rfl rfl rfl with
    | ⟨bot, h1, h2, h3, h4, _⟩ => ⟨bot, h1, h2, h3, h4⟩⟩

/-- C5: when the handshake response does not report success, `New` returns
the error `connection error, ` followed by the response's error text, returns
no session, and does not dial. -/
theorem New_refused (w : World) (token : String) (resp : connectResponse)
    (hr : rtmStart w token = .ok resp) (hok : resp.OK = false) :
    New w token = (.error ("connection error, " ++ resp.Error), []) ∧
      session (New w token) = none ∧
      failure (New w token) = some ("connection error, " ++ resp.Error) ∧
      (New w token).2 = [] := by
  have h : New w token = (.error ("connection error, " ++ resp.Error), []) := by
    simp [New, hr, hok]
  rw [h]
  exact ⟨rfl, rfl, rfl, rfl⟩

/-- Witness of C5: the response with `ok` false and error `invalid_auth`. -/
theorem New_refused_witness :
    rtmStart (worldWith (.response 200 (.ok refusedResponse))) "xoxb-token" = .ok refusedResponse ∧
      session (New (worldWith (.response 200 (.ok refusedResponse))) "xoxb-token") = none ∧
      failure (New (worldWith (.response 200 (.ok refusedResponse))) "xoxb-token") =
        some "connection error, invalid_auth" ∧
      (New (worldWith (.response 200 (.ok refusedResponse))) "xoxb-token").2 = [] :=
  ⟨rfl, (New_refused (worldWith (.response 200 (.ok refusedResponse))) "xoxb-token"
      refusedResponse rfl rfl).2⟩

/-- C9 at the failing input: when the body cannot be decoded, the error
returned by `rtmStart` reads `response decode error, <nil>` and does not carry
the message of the decode error. -/
theorem decode_error_lost :
    rtmStart (worldWith (.response 200 (.error "unexpected EOF"))) "xoxb-token" =
        .error "response decode error, <nil>" ∧
      ¬ ("unexpected EOF".toList <:+: "response decode error, <nil>".toList) := by
  constructor
  · rfl
  · decide

end Timesheet
